import Mathlib

set_option maxRecDepth 4000

/-!
Shallow embedding of the ez-flow real-time transcription core
(src-tauri/src/services/audio, src-tauri/src/services/streaming,
src-tauri/src/services/transcription, src-tauri/src/commands/workflow.rs,
src-tauri/src/services/hotkey/mod.rs) together with theorems settling the
frozen claims about it.

Modelling conventions:
* f32 samples are modelled as rationals; the chunking, splicing and length
  claims only move samples around, so sample arithmetic is exact here.
* Rust Vec and slice values are Lean lists.  Rust string slices are lists of
  characters (RStr below); Rust str::len, which counts UTF-8 bytes, is
  modelled by utf8Len.  For the one claim that is about raw byte indexing
  (C9) strings are modelled directly as UTF-8 byte sequences.
* Saturating u64 and usize subtraction is Nat subtraction.
* The external rubato resampler and the whisper inference engine are
  abstracted as function parameters; everything the repository itself
  computes is translated from the source.
* Wall-clock instants are Nat milliseconds.
-/

namespace EzFlow

/-- Rust text as its character sequence. -/
abbrev RStr := List Char

/-- Turn a Lean string literal into the modelled text. -/
def str (s : String) : RStr := s.data

/-- Rust str::len: the number of UTF-8 bytes of the text. -/
def utf8Len (s : RStr) : Nat := (s.map Char.utf8Size).sum

/-- Accumulator-passing worker for split_whitespace. -/
def splitWhitespaceAux (acc : RStr) : RStr → List RStr
  | [] => if acc.isEmpty then [] else [acc.reverse]
  | c :: cs =>
    if c.isWhitespace then
      if acc.isEmpty then splitWhitespaceAux [] cs
      else acc.reverse :: splitWhitespaceAux [] cs
    else splitWhitespaceAux (c :: acc) cs

/-- Rust str::split_whitespace: the non-empty maximal runs of
non-whitespace characters. -/
def split_whitespace (s : RStr) : List RStr := splitWhitespaceAux [] s

/-- Number of whitespace-separated words, as used by reconcile. -/
def wordCount (s : RStr) : Nat := (split_whitespace s).length

/-- Rust str::trim: drop leading and trailing whitespace. -/
def trimChars (s : RStr) : RStr :=
  ((s.dropWhile Char.isWhitespace).reverse.dropWhile Char.isWhitespace).reverse

/-! ## Sample conditioner (src/src-tauri/src/services/audio/processing.rs) -/

/-- stereo_to_mono from processing.rs lines 44-55: chunks(2) averages each
complete pair; a trailing singleton chunk yields chunk[0] unchanged. -/
def stereo_to_mono : List ℚ → List ℚ
  | a :: b :: rest => (a + b) / 2 :: stereo_to_mono rest
  | [a] => [a]
  | [] => []

/-- Expected output length of resample_for_whisper:
ceil(len * 16000 / rate), computed exactly over the naturals.  The source
computes the same ceiling through f64 arithmetic. -/
def expectedResampleLen (len rate : Nat) : Nat :=
  (len * 16000 + (rate - 1)) / rate

/-- The block decomposition performed by the processing loop of
resample_for_whisper (processing.rs lines 82-104): successive slices of
1024 input frames, the final slice zero-padded to the full block size. -/
def toBlocks1024 (samples : List ℚ) : List (List ℚ) :=
  if _h : samples = [] then []
  else
    let block := samples.take 1024
    (block ++ List.replicate (1024 - block.length) 0) :: toBlocks1024 (samples.drop 1024)
  termination_by samples.length
  decreasing_by
    cases samples with
    | nil => simp at _h
    | cons a as => simp; omega

/-- Feed the blocks through the stateful external resampler and
concatenate the produced frames, as the processing loop does. -/
def runBlocks {σ : Type} (proc : σ → List ℚ → List ℚ × σ) : σ → List (List ℚ) → List ℚ
  | _, [] => []
  | s, b :: bs =>
    let r := proc s b
    r.1 ++ runBlocks proc r.2 bs

/-- resample_for_whisper from processing.rs lines 58-119.  The external
rubato SincFixedIn resampler is abstracted as the stateful function proc
with initial state s0; the identity and empty short-circuits, the block
loop and the final truncation to the expected length are the code under
src. -/
def resample_for_whisper {σ : Type} (proc : σ → List ℚ → List ℚ × σ) (s0 : σ)
    (samples : List ℚ) (sampleRate : Nat) : List ℚ :=
  if sampleRate = 16000 then samples
  else if samples.isEmpty then []
  else (runBlocks proc s0 (toBlocks1024 samples)).take
    (expectedResampleLen samples.length sampleRate)

/-! ## Chunked ring (src/src-tauri/src/services/audio/chunking.rs)

Samples are a type parameter: the chunking logic never inspects them.  The
per-chunk resampling loop (lines 243-288 and 384-420) is abstracted as the
stateful function cfg.resample, because the buffer bookkeeping being
verified is the same for every resampler.  Timestamps and the constant
sample_rate field are omitted from the chunk record; no claim mentions
them. -/

/-- AudioChunk from chunking.rs lines 20-31, restricted to the fields the
claims are about. -/
structure RChunk (α : Type) where
  samples : List α
  chunkIndex : Nat
  hasOverlap : Bool
  deriving DecidableEq, Repr

/-- ChunkConfig (lines 72-79) plus the abstracted resampler. -/
structure ChunkCfg (α σ : Type) where
  inputChunkSize : Nat
  maxQueueSize : Nat
  resample : σ → List α → List α × σ

/-- The mutable state of ChunkedAudioBuffer (lines 109-128). -/
structure ChunkBuf (α σ : Type) where
  pending : List α
  fullBuffer : List α
  chunks : List (RChunk α)
  chunkCounter : Nat
  resState : σ

/-- create_chunk from chunking.rs lines 228-311: drain one input chunk
from pending, resample it, append the resampled samples to the full
buffer, and enqueue the chunk, dropping the oldest queued chunk first if
the queue is full. -/
def create_chunk {α σ : Type} (cfg : ChunkCfg α σ) (st : ChunkBuf α σ) :
    ChunkBuf α σ × Option (RChunk α) :=
  if st.pending.length < cfg.inputChunkSize then (st, none)
  else
    let idx := st.chunkCounter
    let r := cfg.resample st.resState (st.pending.take cfg.inputChunkSize)
    let c : RChunk α := ⟨r.1, idx, decide (0 < idx)⟩
    let q := if cfg.maxQueueSize ≤ st.chunks.length then st.chunks.drop 1 else st.chunks
    ({ pending := st.pending.drop cfg.inputChunkSize,
       fullBuffer := st.fullBuffer ++ r.1,
       chunks := q ++ [c],
       chunkCounter := idx + 1,
       resState := r.2 }, some c)

/-- The while loop of add_samples (lines 216-224), run with enough fuel:
each iteration consumes inputChunkSize pending samples, so pending.length
iterations always suffice when inputChunkSize is positive. -/
def chunk_loop {α σ : Type} (cfg : ChunkCfg α σ) :
    Nat → ChunkBuf α σ → ChunkBuf α σ × List (RChunk α)
  | 0, st => (st, [])
  | fuel + 1, st =>
    if cfg.inputChunkSize ≤ st.pending.length then
      match create_chunk cfg st with
      | (st1, some c) =>
        let r := chunk_loop cfg fuel st1
        (r.1, c :: r.2)
      | (st1, none) => (st1, [])
    else (st, [])

/-- add_samples from chunking.rs lines 211-225, also returning the chunks
produced by the loop. -/
def add_samples {α σ : Type} (cfg : ChunkCfg α σ) (st : ChunkBuf α σ) (xs : List α) :
    ChunkBuf α σ × List (RChunk α) :=
  chunk_loop cfg (st.pending ++ xs).length { st with pending := st.pending ++ xs }

/-- flush_remaining from chunking.rs lines 372-432: resample all pending
samples, append them to the full buffer, and return (without enqueueing)
the final chunk. -/
def flush_remaining {α σ : Type} (cfg : ChunkCfg α σ) (st : ChunkBuf α σ) :
    ChunkBuf α σ × Option (RChunk α) :=
  if st.pending.isEmpty then (st, none)
  else
    let idx := st.chunkCounter
    let r := cfg.resample st.resState st.pending
    ({ pending := [],
       fullBuffer := st.fullBuffer ++ r.1,
       chunks := st.chunks,
       chunkCounter := idx + 1,
       resState := r.2 }, some ⟨r.1, idx, decide (0 < idx)⟩)

/-- The ring operations a session may interleave after reset. -/
inductive RingOp (α : Type) where
  | addSamples (xs : List α)
  | flushRemaining
  | drainReady
  | takeNext

/-- One ring operation, returning the chunks it produced.
drainReady models get_pending_chunks (line 322) and takeNext models
take_next_chunk (line 337); both only remove queued chunks. -/
def ring_step {α σ : Type} (cfg : ChunkCfg α σ) (st : ChunkBuf α σ) :
    RingOp α → ChunkBuf α σ × List (RChunk α)
  | .addSamples xs => add_samples cfg st xs
  | .flushRemaining =>
    match flush_remaining cfg st with
    | (st1, some c) => (st1, [c])
    | (st1, none) => (st1, [])
  | .drainReady => ({ st with chunks := [] }, [])
  | .takeNext => ({ st with chunks := st.chunks.drop 1 }, [])

/-- Run a sequence of ring operations, collecting every chunk produced. -/
def run_ring {α σ : Type} (cfg : ChunkCfg α σ) (st : ChunkBuf α σ) :
    List (RingOp α) → ChunkBuf α σ × List (RChunk α)
  | [] => (st, [])
  | op :: ops =>
    let r := ring_step cfg st op
    let r2 := run_ring cfg r.1 ops
    (r2.1, r.2 ++ r2.2)

/-- The buffer immediately after reset (lines 191-205). -/
def init_buf {α σ : Type} (s0 : σ) : ChunkBuf α σ :=
  ⟨[], [], [], 0, s0⟩

/-- In-order concatenation of the samples of a list of chunks. -/
def samplesConcat {α : Type} (cs : List (RChunk α)) : List α :=
  (cs.map RChunk.samples).flatten

/-! ## Streaming orchestrator (src/src-tauri/src/services/streaming/mod.rs) -/

/-- StreamingMode from models. -/
inductive SMode where
  | speed
  | balanced
  | accuracy
  deriving DecidableEq, Repr

/-- The payload of a transcription final event (FinalTranscriptionEvent,
lines 46-55), without the f32 duration field. -/
structure FinalEvt where
  text : RStr
  totalChunks : Nat
  reconciled : Bool
  deriving DecidableEq, Repr

/-- The word-splice of Balanced reconciliation (mod.rs lines 334-361):
with strictly more streaming words than tail words, keep the earliest
word_count - (tail_word_count + 2) words (saturating), join them with
single spaces, append one space only when that prefix is non-empty, then
the tail text; otherwise the tail text verbatim. -/
def spliceBalanced (streamingText tailText : RStr) : RStr :=
  let wc := wordCount streamingText
  let twc := wordCount tailText
  if twc < wc then
    let ws := split_whitespace streamingText
    let keepCount := wc - (twc + 2)
    let kept := List.intercalate [' '] (ws.take (min keepCount ws.length))
    (if kept.isEmpty then kept else kept ++ [' ']) ++ tailText
  else tailText

/-- reconcile from mod.rs lines 304-382.  The engine calls
(transcribe_with_auto_load_and_prompt) are abstracted as the function
engine from the submitted samples to a transcription or an error; the mode
dispatch, the 5-second tail selection, the splice and the emitted final
events are the code under src. -/
def reconcile {ε : Type} (mode : SMode) (accumulatedText : RStr)
    (chunksProcessed : Nat) (fullAudio : List ℚ)
    (engine : List ℚ → Except ε RStr) : Except ε RStr × List FinalEvt :=
  match mode with
  | .speed =>
    (Except.ok accumulatedText, [⟨accumulatedText, chunksProcessed, false⟩])
  | .balanced =>
    if 5 * 16000 < fullAudio.length then
      match engine (fullAudio.drop (fullAudio.length - 5 * 16000)) with
      | .error e => (Except.error e, [])
      | .ok tailText =>
        let finalText := spliceBalanced accumulatedText tailText
        (Except.ok finalText, [⟨finalText, chunksProcessed, true⟩])
    else
      (Except.ok accumulatedText, [⟨accumulatedText, chunksProcessed, false⟩])
  | .accuracy =>
    match engine fullAudio with
    | .error e => (Except.error e, [])
    | .ok t => (Except.ok t, [⟨t, chunksProcessed, true⟩])

/-- The fallback in handle_streaming_completion (hotkey/mod.rs lines
523-533): on a reconciliation error the session keeps the accumulated
streaming text as the final text. -/
def sessionFinalText {ε : Type} (accumulatedText : RStr) (r : Except ε RStr) : RStr :=
  match r with
  | .ok t => t
  | .error _ => accumulatedText

/-- Claim C1's splice formula taken literally: the kept prefix, then
always a single space, then the tail text. -/
def claimBalancedSplice (streamingText tailText : RStr) : RStr :=
  if wordCount tailText < wordCount streamingText then
    List.intercalate [' ']
        ((split_whitespace streamingText).take
          (wordCount streamingText - (wordCount tailText + 2)))
      ++ [' '] ++ tailText
  else tailText

/-- The amended splice formula: as the claim, except that the separating
space appears only when the kept prefix is non-empty. -/
def amendedBalancedSplice (streamingText tailText : RStr) : RStr :=
  if wordCount tailText < wordCount streamingText then
    let kept := List.intercalate [' ']
      ((split_whitespace streamingText).take
        (wordCount streamingText - (wordCount tailText + 2)))
    if kept = [] then tailText else kept ++ [' '] ++ tailText
  else tailText

/-- The rate limiter of maybe_emit_partial (mod.rs lines 201-215) applied
to the instants of successive successful process_chunk calls: an emission
happens when at least MIN_EMIT_INTERVAL_MS = 333 ms elapsed since the last
emission, and only then is the last-emission clock updated.  Returns the
instants at which partial events were emitted. -/
def emitTimes (lastEmit : Nat) : List Nat → List Nat
  | [] => []
  | t :: ts =>
    if t - lastEmit < 333 then emitTimes lastEmit ts
    else t :: emitTimes t ts

/-- Number of emissions inside the half-open 1-second window starting at
w. -/
def windowCount (l : List Nat) (w : Nat) : Nat :=
  (l.filter (fun t => decide (w ≤ t ∧ t < w + 1000))).length

/-! ## Orchestrator per-chunk submission (mod.rs lines 138-193) -/

/-- TranscriptionError, restricted to the variants this path constructs. -/
inductive TranscriptionErr where
  | modelNotLoaded
  | inferenceFailed (msg : String)
  deriving DecidableEq, Repr

/-- The session fields of StreamingTranscriptionService (lines 67-82). -/
structure OrchState where
  accumulatedText : RStr
  lastChunkIndex : Nat
  chunksProcessed : Nat
  lastContext : Option RStr
  lastEmitTime : Nat
  isActive : Bool
  deriving DecidableEq, Repr

/-- The chunk metadata process_chunk reads (index and timestamp). -/
structure InChunk where
  chunkIndex : Nat
  timestampMs : Nat
  deriving DecidableEq, Repr

/-- ChunkTranscriptionResult (engine.rs lines 14-26), restricted to the
fields this path uses. -/
structure ChunkRes where
  text : RStr
  chunkIndex : Nat
  timestampMs : Nat
  deriving DecidableEq, Repr

/-- A transcription partial event (PartialTranscriptionEvent). -/
structure PartialEvent where
  text : RStr
  chunkIndex : Nat
  timestampMs : Nat
  deriving DecidableEq, Repr

/-- process_chunk from streaming/mod.rs lines 138-193 together with the
rate-limited maybe_emit_partial it calls.  The engine call
(transcribe_chunk_with_auto_load on the given chunk) is abstracted as the
function engine from the read context to the transcribed text or an
error.  nowMs is the instant of the maybe_emit_partial clock read. -/
def process_chunk (s : OrchState) (nowMs : Nat) (chunk : InChunk)
    (engine : Option RStr → Except TranscriptionErr RStr) :
    Except TranscriptionErr ChunkRes × OrchState × List PartialEvent :=
  if !s.isActive then
    (Except.error (.inferenceFailed "Streaming not active"), s, [])
  else if chunk.chunkIndex < s.lastChunkIndex then
    (Except.error (.inferenceFailed "Chunk already processed"), s, [])
  else
    match engine s.lastContext with
    | .error e => (Except.error e, s, [])
    | .ok text =>
      let res : ChunkRes := ⟨text, chunk.chunkIndex, chunk.timestampMs⟩
      let s1 := { s with
        lastChunkIndex := chunk.chunkIndex + 1,
        chunksProcessed := s.chunksProcessed + 1 }
      let s2 :=
        if text.isEmpty then s1
        else
          let acc :=
            if s1.accumulatedText.isEmpty then text
            else s1.accumulatedText ++ [' '] ++ text
          { s1 with accumulatedText := acc, lastContext := some acc }
      if nowMs - s2.lastEmitTime < 333 then (Except.ok res, s2, [])
      else
        (Except.ok res, { s2 with lastEmitTime := nowMs },
         [⟨s2.accumulatedText, res.chunkIndex, res.timestampMs⟩])

/-! ## ASR engine heuristics (src/src-tauri/src/services/transcription/engine.rs) -/

/-- hasFourRun: some word occurs at four consecutive positions
(the loop of has_repetition, engine.rs lines 420-431). -/
def hasFourRun : List RStr → Bool
  | a :: b :: c :: d :: rest =>
    (a == b && b == c && c == d) || hasFourRun (b :: c :: d :: rest)
  | _ => false

/-- has_repetition from engine.rs lines 414-434: texts shorter than 20
bytes are never flagged. -/
def has_repetition (text : RStr) : Bool :=
  if utf8Len text < 20 then false
  else hasFourRun (split_whitespace text)

/-- estimate_chunk_confidence from engine.rs lines 368-411.  The f32
constants are the corresponding rationals. -/
def estimate_chunk_confidence (text : RStr) (durationSecs : ℚ) (tokenCount : ℤ) : ℚ :=
  let c0 : ℚ := 7/10
  let expectedChars : ℚ := durationSecs * 15
  let actualChars : ℚ := (utf8Len text : ℚ)
  let c1 : ℚ :=
    if 0 < actualChars then
      let r := actualChars / expectedChars
      if r < 3/10 then c0 - 2/10
      else if 3 < r then c0 - 15/100
      else if 1/2 ≤ r ∧ r ≤ 2 then c0 + 1/10
      else c0
    else c0 - 3/10
  let c2 : ℚ :=
    if 0 < tokenCount then
      if 10 < (tokenCount : ℚ) / durationSecs then c1 - 1/10 else c1
    else c1
  let trimmed := trimChars text
  if trimmed.isEmpty then 0
  else
    let c3 := if has_repetition trimmed then c2 - 2/10 else c2
    max 0 (min 1 c3)

/-- Claim C8's heuristic taken literally: zero characters give 0, the
three length-ratio adjustments, the token-rate penalty, the repetition
penalty with no further condition, and the clamp. -/
def claimConfidence (text : RStr) (durationSecs : ℚ) (tokenCount : ℤ) : ℚ :=
  let actualChars : ℚ := (utf8Len text : ℚ)
  if actualChars = 0 then 0
  else
    let r := actualChars / (15 * durationSecs)
    max 0 (min 1
      (7/10 - (if r < 3/10 then 2/10 else 0) - (if 3 < r then 15/100 else 0)
        + (if 1/2 ≤ r ∧ r ≤ 2 then 1/10 else 0)
        - (if 0 < tokenCount ∧ 10 < (tokenCount : ℚ) / durationSecs then 1/10 else 0)
        - (if hasFourRun (split_whitespace text) = true then 2/10 else 0)))

/-- The amended heuristic: as the claim, except that any text whose
trimmed form is empty scores 0, and the repetition penalty applies only
when the trimmed text is at least 20 bytes long and some word repeats at
four consecutive positions of the trimmed text. -/
def amendedConfidence (text : RStr) (durationSecs : ℚ) (tokenCount : ℤ) : ℚ :=
  if (trimChars text).isEmpty then 0
  else
    let r := (utf8Len text : ℚ) / (15 * durationSecs)
    max 0 (min 1
      (7/10 - (if r < 3/10 then 2/10 else 0) - (if 3 < r then 15/100 else 0)
        + (if 1/2 ≤ r ∧ r ≤ 2 then 1/10 else 0)
        - (if 0 < tokenCount ∧ 10 < (tokenCount : ℚ) / durationSecs then 1/10 else 0)
        - (if 20 ≤ utf8Len (trimChars text) ∧
              hasFourRun (split_whitespace (trimChars text)) = true then 2/10 else 0)))

/-! ## Chunk prompt extraction (engine.rs lines 240-309)

This claim is about raw byte indexing, so here a Rust str is its UTF-8
byte sequence. -/

/-- Rust str::is_char_boundary: index 0 is a boundary, the end of the
string is a boundary, and an interior index is a boundary exactly when its
byte is not a UTF-8 continuation byte (0x80..0xBF). -/
def rust_is_char_boundary (bytes : List Nat) (i : Nat) : Bool :=
  if i = 0 then true
  else
    match bytes.get? i with
    | some b => decide (b < 128) || decide (192 ≤ b)
    | none => decide (i = bytes.length)

/-- Rust byte slicing s[i..]: the suffix when i is a char boundary, and a
panic (modelled as none) otherwise. -/
def slice_from (bytes : List Nat) (i : Nat) : Option (List Nat) :=
  if rust_is_char_boundary bytes i then some (bytes.drop i) else none

/-- The context-suffix computation of transcribe_chunk (engine.rs lines
302-306): contexts over 200 bytes are sliced at len - 200 by byte index. -/
def context_suffix (ctxBytes : List Nat) : Option (List Nat) :=
  if 200 < ctxBytes.length then slice_from ctxBytes (ctxBytes.length - 200)
  else some ctxBytes

/-- What transcribe_chunk does before inference, for a loaded model. -/
inductive ChunkPromptOutcome where
  | shortEmpty
  | inference (prompt : Option (List Nat))
  | panicked
  deriving DecidableEq, Repr

/-- The pre-inference path of transcribe_chunk (engine.rs lines 250-309)
for a loaded model: empty chunks and chunks under MIN_SAMPLES = 8000
short-circuit; otherwise inference runs, with the initial prompt obtained
from the non-empty context by the byte-sliced suffix; a slice off a char
boundary is a panic. -/
def transcribe_chunk_prompt (samplesLen : Nat) (contextBytes : Option (List Nat)) :
    ChunkPromptOutcome :=
  if samplesLen = 0 then .shortEmpty
  else if samplesLen < 8000 then .shortEmpty
  else
    match contextBytes with
    | none => .inference none
    | some ctx =>
      if ctx.isEmpty then .inference none
      else
        match context_suffix ctx with
        | some suffixBytes => .inference (some suffixBytes)
        | none => .panicked

/-- The UTF-8 bytes of one two-byte character followed by 199 ASCII
letters: 201 bytes whose 200th-from-last byte index falls inside the
two-byte character. -/
def c9BadContext : List Nat := 195 :: 169 :: List.replicate 199 97

/-! ## Hotkey press handler and workflow cooldown
(src/src-tauri/src/services/hotkey/mod.rs, src/src-tauri/src/commands/workflow.rs) -/

/-- is_cooldown_active from workflow.rs lines 51-59:
now_ms.saturating_sub(last) < COOLDOWN_MS with COOLDOWN_MS = 500. -/
def is_cooldown_active (nowMs lastCompletionMs : Nat) : Bool :=
  nowMs - lastCompletionMs < 500

/-- Events the hotkey pressed branch can emit. -/
inductive HkEvent where
  | recordingStarted
  | trayUpdate (recording : Bool)
  deriving DecidableEq, Repr

/-- The per-recording flags of HotkeyState touched by the pressed branch. -/
structure HkState where
  isRecording : Bool
  recordingStart : Nat
  isStreamingActive : Bool
  deriving DecidableEq, Repr

/-- Outcome of AudioCommand::Start as seen by the pressed branch; every
non-Ok arm of the match has the same effect on the modelled state, so they
are one case. -/
inductive StartResult where
  | ok
  | failed
  deriving DecidableEq, Repr

/-- The ShortcutState::Pressed branch of register_hotkey (hotkey/mod.rs
lines 117-205), restricted to the modelled fields.  It reads only
is_hotkey_recording; the workflow cooldown is never consulted here. -/
def pressStep (s : HkState) (nowMs : Nat) (streamingEnabled : Bool)
    (startRes : StartResult) : HkState × List HkEvent :=
  if s.isRecording then (s, [])
  else
    let s1 : HkState :=
      { isRecording := true, recordingStart := nowMs,
        isStreamingActive := streamingEnabled }
    match startRes with
    | .ok => (s1, [HkEvent.recordingStarted, HkEvent.trayUpdate true])
    | .failed =>
      ({ s1 with isRecording := false, isStreamingActive := false }, [])

/-- Events emitted by push_to_talk_complete. -/
inductive WfEvent where
  | stateChanged (s : String)
  | wfError (phase : String)
  | metrics
  deriving DecidableEq, Repr

/-- push_to_talk_complete from workflow.rs lines 74-195, with the
stop-and-transcribe call and the injector abstracted as parameters.
Returns the command result, the new LAST_COMPLETION_MS value, and the
emitted workflow events. -/
def push_to_talk_complete (nowMs lastCompletionMs : Nat)
    (transcription : Except String String) (injectOk : Bool) :
    Except String String × Nat × List WfEvent :=
  if is_cooldown_active nowMs lastCompletionMs then
    (Except.error "Cooldown active - please wait before recording again",
     lastCompletionMs, [])
  else
    match transcription with
    | .error e =>
      (Except.error e, lastCompletionMs,
       [WfEvent.stateChanged "transcribing", WfEvent.wfError "transcription",
        WfEvent.stateChanged "idle"])
    | .ok rawText =>
      let text := rawText.trim
      if text = "" then
        (Except.ok "", nowMs,
         [WfEvent.stateChanged "transcribing", WfEvent.stateChanged "idle"])
      else if injectOk then
        (Except.ok text, nowMs,
         [WfEvent.stateChanged "transcribing", WfEvent.stateChanged "injecting",
          WfEvent.metrics, WfEvent.stateChanged "idle"])
      else
        (Except.error "Text injection failed", lastCompletionMs,
         [WfEvent.stateChanged "transcribing", WfEvent.stateChanged "injecting",
          WfEvent.wfError "injection", WfEvent.stateChanged "idle"])

/-! ## Concrete instances used by witnesses -/

/-- A small ring configuration over integer samples with the identity
resampler: chunks of 2 input samples, queue capacity 1. -/
def cfgW : ChunkCfg ℤ Unit :=
  ⟨2, 1, fun s xs => (xs, s)⟩

/-- A session whose second chunk overflows the length-1 queue. -/
def opsW : List (RingOp ℤ) :=
  [RingOp.addSamples [1, 2, 3, 4, 5], RingOp.takeNext, RingOp.flushRemaining]

/-- A resampler stub that doubles its block, for the length witness. -/
def procW : Unit → List ℚ → List ℚ × Unit :=
  fun s xs => (xs ++ xs, s)

/-- An orchestrator state with streaming inactive. -/
def orchW : OrchState :=
  ⟨[], 0, 0, none, 0, false⟩

/-! ## Theorems -/

/-- C7 counterexample: on the odd-length input [1, 0, 3] stereo_to_mono
keeps the trailing lone sample, producing [1/2, 3] of length 2 =
ceil(3/2); the claim requires the incomplete trailing frame to be
discarded and the output length to be floor(3/2) = 1. -/
theorem c7_downmix_counterexample :
    stereo_to_mono [1, 0, 3] = [1/2, 3] ∧
    (stereo_to_mono [1, 0, 3]).length ≠ 3 / 2 := by
  constructor
  · norm_num [stereo_to_mono]
  · norm_num [stereo_to_mono]

/-- C7 (amended): stereo_to_mono averages each complete frame, but passes
an incomplete trailing frame through as its single sample, so the output
length is ceil(input length / 2), not floor, on odd-length inputs. -/
theorem c7_downmix (l : List ℚ) :
    (stereo_to_mono l).length = (l.length + 1) / 2 ∧
    (∀ i : Nat, 2 * i + 1 < l.length →
      (stereo_to_mono l).get? i = some ((l.getD (2 * i) 0 + l.getD (2 * i + 1) 0) / 2)) ∧
    (∀ i : Nat, l.length = 2 * i + 1 → (stereo_to_mono l).get? i = l.get? (2 * i)) := by
  induction l using stereo_to_mono.induct with
  | case1 a b rest ih =>
    obtain ⟨ih1, ih2, ih3⟩ := ih
    refine ⟨?_, ?_, ?_⟩
    · simp [stereo_to_mono, ih1]; omega
    · intro i hi
      cases i with
      | zero => simp [stereo_to_mono]
      | succ j =>
        simp only [stereo_to_mono, List.get?]
        have := ih2 j (by simp at hi; omega)
        simpa [Nat.mul_succ] using this
    · intro i hi
      cases i with
      | zero => simp at hi
      | succ j =>
        simp only [stereo_to_mono, List.get?]
        have := ih3 j (by simp at hi; omega)
        simpa [Nat.mul_succ] using this
  | case2 a =>
    refine ⟨by simp [stereo_to_mono], ?_, ?_⟩
    · intro i hi; simp at hi
    · intro i hi
      simp only [List.length_singleton] at hi
      have : i = 0 := by omega
      subst this
      simp [stereo_to_mono]
  | case3 =>
    refine ⟨by simp [stereo_to_mono], ?_, ?_⟩
    · intro i hi; simp at hi
    · intro i hi; simp at hi

/-- C7 witness: the amended statement evaluated on the even-length input
[3, 5]: its single output sample is the mean 4. -/
theorem c7_downmix_witness :
    2 * 0 + 1 < ([3, 5] : List ℚ).length ∧
    (stereo_to_mono [3, 5]).get? 0 =
      some ((([3, 5] : List ℚ).getD (2 * 0) 0 + ([3, 5] : List ℚ).getD (2 * 0 + 1) 0) / 2) :=
  ⟨by norm_num, (c7_downmix [3, 5]).2.1 0 (by norm_num)⟩

/-- C5 counterexample: 200 ms after the previous completion the cooldown
is active, yet the hotkey pressed branch starts recording and emits the
recording-started event; the claim requires the press to be rejected with
no recording started. -/
theorem c5_cooldown_counterexample :
    is_cooldown_active 1000 800 = true ∧
    (pressStep ⟨false, 0, false⟩ 1000 false .ok).2 =
      [HkEvent.recordingStarted, HkEvent.trayUpdate true] ∧
    (pressStep ⟨false, 0, false⟩ 1000 false .ok).1.isRecording = true := by
  refine ⟨by decide, by decide, by decide⟩

/-- C5 (amended): the 500 ms cooldown is enforced in push_to_talk_complete
(the completion flow), which rejects with a cooldown error, leaves the
completion time unchanged and emits nothing; the hotkey pressed branch
never consults the cooldown and, when not already recording and capture
start succeeds, starts recording and emits recording-started regardless of
the time since the last completion. -/
theorem c5_cooldown_gate (nowMs lastCompletionMs : Nat)
    (tr : Except String String) (injectOk : Bool) (s : HkState)
    (streamingEnabled : Bool)
    (hcool : nowMs - lastCompletionMs < 500) (hrec : s.isRecording = false) :
    push_to_talk_complete nowMs lastCompletionMs tr injectOk =
      (Except.error "Cooldown active - please wait before recording again",
       lastCompletionMs, []) ∧
    (pressStep s nowMs streamingEnabled .ok).1.isRecording = true ∧
    (pressStep s nowMs streamingEnabled .ok).2 =
      [HkEvent.recordingStarted, HkEvent.trayUpdate true] := by
  refine ⟨?_, ?_, ?_⟩
  · simp [push_to_talk_complete, is_cooldown_active, hcool]
  · simp [pressStep, hrec]
  · simp [pressStep, hrec]

/-- Every emitted instant is at least 333 ms after the clock value the
limiter started from. -/
theorem emitTimes_ge (ts : List Nat) : ∀ lastEmit : Nat,
    ∀ x ∈ emitTimes lastEmit ts, lastEmit + 333 ≤ x := by
  induction ts with
  | nil => intro l x hx; simp [emitTimes] at hx
  | cons t ts ih =>
    intro l x hx
    by_cases h : t - l < 333
    · rw [emitTimes, if_pos h] at hx
      exact ih l x hx
    · rw [emitTimes, if_neg h] at hx
      rcases List.mem_cons.mp hx with rfl | hx'
      · omega
      · have := ih t x hx'
        omega

/-- Any two emitted instants are at least 333 ms apart. -/
theorem emitTimes_pairwise (ts : List Nat) : ∀ lastEmit : Nat,
    List.Pairwise (fun a b => a + 333 ≤ b) (emitTimes lastEmit ts) := by
  induction ts with
  | nil => intro l; simp [emitTimes]
  | cons t ts ih =>
    intro l
    by_cases h : t - l < 333
    · rw [emitTimes, if_pos h]; exact ih l
    · rw [emitTimes, if_neg h]
      exact List.Pairwise.cons (fun x hx => emitTimes_ge ts t x hx) (ih t)

/-- A list of instants pairwise at least 333 ms apart has at most k
members in a 1000 ms window once w + 1000 ≤ max b w + 333 k for a lower
bound b of the list. -/
theorem window_bound : ∀ (l : List Nat),
    List.Pairwise (fun a b => a + 333 ≤ b) l →
    ∀ (w b k : Nat), (∀ x ∈ l, b ≤ x) → w + 1000 ≤ max b w + 333 * k →
    windowCount l w ≤ k := by
  intro l
  induction l with
  | nil => intro _ w b k _ _; simp [windowCount]
  | cons a l ih =>
    intro hp w b k hb hbound
    have hba : b ≤ a := hb a (List.mem_cons_self a l)
    have hal : ∀ x ∈ l, a + 333 ≤ x := fun x hx => List.rel_of_pairwise_cons hp hx
    have hp' : List.Pairwise (fun a b => a + 333 ≤ b) l := hp.of_cons
    by_cases hin : w ≤ a ∧ a < w + 1000
    · have hk : 1 ≤ k := by
        rcases Nat.le_total b w with h1 | h1
        · rw [Nat.max_eq_right h1] at hbound; omega
        · rw [Nat.max_eq_left h1] at hbound; omega
      have hmax2 : max (a + 333) w = a + 333 := Nat.max_eq_left (by omega)
      have step : windowCount l w ≤ k - 1 := by
        apply ih hp' w (a + 333) (k - 1) hal
        rw [hmax2]
        have hmw : max b w ≤ a := Nat.max_le.mpr ⟨hba, hin.1⟩
        omega
      have : windowCount (a :: l) w = windowCount l w + 1 := by
        simp [windowCount, List.filter, hin]
      omega
    · have : windowCount (a :: l) w = windowCount l w := by
        simp [windowCount, List.filter, hin]
      rw [this]
      apply ih hp' w (a + 333) k hal
      have : max b w ≤ max (a + 333) w := max_le_max (by omega) le_rfl
      omega

/-- C4 counterexample: with the 333 ms minimum interval the limiter admits
the four emissions 1000, 1333, 1666, 1999 ms, all inside the single
1-second window starting at 1000 ms, so a 1-second window can hold 4
partial events, not at most 3 as the claim states. -/
theorem c4_rate_limit_counterexample :
    emitTimes 0 [1000, 1333, 1666, 1999] = [1000, 1333, 1666, 1999] ∧
    windowCount (emitTimes 0 [1000, 1333, 1666, 1999]) 1000 = 4 := by
  constructor <;> decide

/-- C4 (amended): any two successive partial emissions produced by the
rate-limited maybe_emit_partial path are at least MIN_EMIT_INTERVAL_MS =
333 ms apart (in fact pairwise), and consequently any 1-second window
contains at most 4 such emissions; the bound 3 from the claim does not
hold, and force_emit_partial bypasses this limiter entirely. -/
theorem c4_partial_rate_limit (lastEmit : Nat) (ts : List Nat) :
    List.Pairwise (fun a b => a + 333 ≤ b) (emitTimes lastEmit ts) ∧
    ∀ w, windowCount (emitTimes lastEmit ts) w ≤ 4 := by
  refine ⟨emitTimes_pairwise ts lastEmit, fun w => ?_⟩
  apply window_bound _ (emitTimes_pairwise ts lastEmit) w 0 4
  · intro x _; exact Nat.zero_le x
  · have : max 0 w = w := Nat.max_eq_right (Nat.zero_le w)
    omega

/-- C5 witness: a completion attempt 100 ms after the previous completion
is rejected, while a press in the same situation starts recording. -/
theorem c5_cooldown_gate_witness :
    (2000 - 1900 < 500 ∧ (⟨false, 5, true⟩ : HkState).isRecording = false) ∧
    push_to_talk_complete 2000 1900 (Except.ok "hello") true =
      (Except.error "Cooldown active - please wait before recording again",
       1900, []) ∧
    (pressStep ⟨false, 5, true⟩ 2000 true .ok).1.isRecording = true :=
  ⟨⟨by decide, by decide⟩,
   (c5_cooldown_gate 2000 1900 (Except.ok "hello") true ⟨false, 5, true⟩ true
      (by decide) (by decide)).1,
   (c5_cooldown_gate 2000 1900 (Except.ok "hello") true ⟨false, 5, true⟩ true
      (by decide) (by decide)).2.1⟩

/-- The splice of the source equals the amended-claim splice: the only
difference is the redundant min with the word-list length and the
conditional space. -/
theorem splice_eq (a b : RStr) : spliceBalanced a b = amendedBalancedSplice a b := by
  unfold spliceBalanced amendedBalancedSplice
  by_cases h : wordCount b < wordCount a
  · simp only [if_pos h]
    have hle : wordCount a - (wordCount b + 2) ≤ (split_whitespace a).length :=
      Nat.sub_le _ _
    rw [Nat.min_eq_left hle]
    by_cases hk :
        List.intercalate [' ']
          ((split_whitespace a).take (wordCount a - (wordCount b + 2))) = []
    · simp [hk]
    · simp [hk, List.append_assoc]
  · simp only [if_neg h]

/-- C1 counterexample: streaming text of 7 words against a 6-word tail.
The kept prefix is max(0, 7 - 6 - 2) = 0 words, and the code returns the
tail verbatim, while the claim formula (prefix, then always a single
space, then the tail) yields a leading space. -/
theorem c1_balanced_splice_counterexample :
    (reconcile (ε := Unit) SMode.balanced (str "a b c d e f g") 0
        (List.replicate 80001 (0 : ℚ)) (fun _ => Except.ok (str "p q r s t u"))).1 =
      Except.ok (str "p q r s t u") ∧
    claimBalancedSplice (str "a b c d e f g") (str "p q r s t u") =
      str " p q r s t u" ∧
    str " p q r s t u" ≠ str "p q r s t u" := by
  refine ⟨?_, by decide, by decide⟩
  have hlen : 5 * 16000 < (List.replicate 80001 (0 : ℚ)).length := by
    rw [List.length_replicate]; norm_num
  simp only [reconcile, if_pos hlen]
  have : spliceBalanced (str "a b c d e f g") (str "p q r s t u") =
      str "p q r s t u" := by decide
  simp [this]

/-- C1 (amended): ending a Balanced session whose full 16 kHz buffer
exceeds 5 seconds re-transcribes exactly the last 80000 samples, and the
result is: with strictly more streaming words than tail words, the first
max(0, words(accumulated) - words(tail) - 2) words of the accumulated
text, then a single separating space only when that prefix is non-empty,
then the tail text; otherwise the tail text verbatim. -/
theorem c1_balanced_splice {ε : Type} (engine : List ℚ → Except ε RStr)
    (streamingText : RStr) (chunksProcessed : Nat) (fullAudio : List ℚ)
    (h : 5 * 16000 < fullAudio.length) :
    (reconcile SMode.balanced streamingText chunksProcessed fullAudio engine).1 =
      Except.map (amendedBalancedSplice streamingText)
        (engine (fullAudio.drop (fullAudio.length - 5 * 16000))) := by
  simp only [reconcile, if_pos h]
  cases hE : engine (fullAudio.drop (fullAudio.length - 5 * 16000)) with
  | error e => simp [Except.map]
  | ok t => simp [Except.map, splice_eq]

/-- C1 witness: the claim's own example, 9 streaming words against a
6-word tail, keeps max(0, 9 - 6 - 2) = 1 word and yields
"alpha epsilon zeta eta theta iota kappa". -/
theorem c1_balanced_splice_witness :
    5 * 16000 < (List.replicate 80001 (0 : ℚ)).length ∧
    (reconcile (ε := Unit) SMode.balanced
        (str "alpha beta gamma delta epsilon zeta eta theta iota") 4
        (List.replicate 80001 (0 : ℚ))
        (fun _ => Except.ok (str "epsilon zeta eta theta iota kappa"))).1 =
      Except.ok (str "alpha epsilon zeta eta theta iota kappa") := by
  have hlen : 5 * 16000 < (List.replicate 80001 (0 : ℚ)).length := by
    rw [List.length_replicate]; norm_num
  refine ⟨hlen, ?_⟩
  rw [c1_balanced_splice _ _ _ _ hlen]
  simp only [Except.map, Except.ok.injEq]
  decide

/-- C6 counterexample: a Balanced session whose tail re-transcription
fails ends with the accumulated text as final text, but the emitted final
event list is empty, so no final event with reconciled = false is emitted,
contrary to the claim. -/
theorem c6_reconcile_error_counterexample :
    (reconcile (ε := Unit) SMode.balanced (str "hello world") 3
        (List.replicate 80001 (0 : ℚ)) (fun _ => Except.error ())).1 =
      Except.error () ∧
    (reconcile (ε := Unit) SMode.balanced (str "hello world") 3
        (List.replicate 80001 (0 : ℚ)) (fun _ => Except.error ())).2 = [] ∧
    sessionFinalText (str "hello world")
      (reconcile (ε := Unit) SMode.balanced (str "hello world") 3
        (List.replicate 80001 (0 : ℚ)) (fun _ => Except.error ())).1 =
      str "hello world" := by
  have hlen : 5 * 16000 < (List.replicate 80001 (0 : ℚ)).length := by
    rw [List.length_replicate]; norm_num
  have key : reconcile (ε := Unit) SMode.balanced (str "hello world") 3
      (List.replicate 80001 (0 : ℚ)) (fun _ => Except.error ()) =
      (Except.error (), []) := by
    simp only [reconcile, if_pos hlen]
  refine ⟨?_, ?_, ?_⟩
  · rw [key]
  · rw [key]
  · rw [key]
    simp [sessionFinalText]

/-- C6 (amended): whenever the reconciliation pass fails with an inference
error, the session's final text falls back to the accumulated streaming
text, but no final event at all is emitted on that path (in particular
none with reconciled = false); completion is signalled elsewhere. -/
theorem c6_reconcile_error_fallback {ε : Type} (mode : SMode) (acc : RStr)
    (n : Nat) (full : List ℚ) (engine : List ℚ → Except ε RStr) (e : ε)
    (h : (reconcile mode acc n full engine).1 = Except.error e) :
    (reconcile mode acc n full engine).2 = [] ∧
    sessionFinalText acc (reconcile mode acc n full engine).1 = acc := by
  cases mode with
  | speed => simp [reconcile] at h
  | balanced =>
    by_cases hlen : 5 * 16000 < full.length
    · rcases hE : engine (full.drop (full.length - 5 * 16000)) with e' | t
      · constructor
        · simp [reconcile, if_pos hlen, hE]
        · simp [reconcile, if_pos hlen, hE, sessionFinalText]
      · exfalso
        simp [reconcile, if_pos hlen, hE] at h
    · simp [reconcile, if_neg hlen] at h
  | accuracy =>
    rcases hE : engine full with e' | t
    · constructor
      · simp [reconcile, hE]
      · simp [reconcile, hE, sessionFinalText]
    · exfalso
      simp [reconcile, hE] at h

/-- C6 witness: an Accuracy-mode reconciliation whose full re-transcription
fails emits no final event and falls back to the accumulated text. -/
theorem c6_reconcile_error_fallback_witness :
    (reconcile (ε := Unit) SMode.accuracy (str "abc def") 1 []
        (fun _ => Except.error ())).1 = Except.error () ∧
    (reconcile (ε := Unit) SMode.accuracy (str "abc def") 1 []
        (fun _ => Except.error ())).2 = [] ∧
    sessionFinalText (str "abc def")
      (reconcile (ε := Unit) SMode.accuracy (str "abc def") 1 []
        (fun _ => Except.error ())).1 = str "abc def" := by
  have h : (reconcile (ε := Unit) SMode.accuracy (str "abc def") 1 []
      (fun _ => Except.error ())).1 = Except.error () := by
    simp [reconcile]
  exact ⟨h, (c6_reconcile_error_fallback _ _ _ _ _ () h).1,
    (c6_reconcile_error_fallback _ _ _ _ _ () h).2⟩

/-- C10: whenever process_chunk returns an error (streaming inactive,
stale chunk index, or a failing engine call), the whole orchestrator
session state is returned unchanged and no partial event is emitted. -/
theorem c10_process_chunk_error_no_mutation (s : OrchState) (nowMs : Nat)
    (chunk : InChunk) (engine : Option RStr → Except TranscriptionErr RStr)
    (h : (process_chunk s nowMs chunk engine).1.isOk = false) :
    (process_chunk s nowMs chunk engine).2.1 = s ∧
    (process_chunk s nowMs chunk engine).2.2 = [] := by
  cases hA : s.isActive with
  | false => simp [process_chunk, hA]
  | true =>
    by_cases hI : chunk.chunkIndex < s.lastChunkIndex
    · simp [process_chunk, hA, hI]
    · rcases hE : engine s.lastContext with e | t
      · simp [process_chunk, hA, hI, hE]
      · exfalso
        rw [process_chunk] at h
        simp only [hA, hI, hE, Bool.not_true, Bool.false_eq_true, if_false] at h
        by_cases hT : t.isEmpty <;> by_cases hEm : nowMs - s.lastEmitTime < 333 <;>
          simp [hT, hEm, Except.isOk, Except.toBool] at h

/-- C10 witness: submitting a chunk while streaming is inactive fails and
leaves the state untouched with no event. -/
theorem c10_process_chunk_error_no_mutation_witness :
    (process_chunk orchW 0 ⟨0, 0⟩ (fun _ => Except.ok (str "hi"))).1.isOk = false ∧
    (process_chunk orchW 0 ⟨0, 0⟩ (fun _ => Except.ok (str "hi"))).2.1 = orchW ∧
    (process_chunk orchW 0 ⟨0, 0⟩ (fun _ => Except.ok (str "hi"))).2.2 = [] := by
  have h : (process_chunk orchW 0 ⟨0, 0⟩ (fun _ => Except.ok (str "hi"))).1.isOk
      = false := by decide
  exact ⟨h, (c10_process_chunk_error_no_mutation orchW 0 ⟨0, 0⟩ _ h).1,
    (c10_process_chunk_error_no_mutation orchW 0 ⟨0, 0⟩ _ h).2⟩

/-- Concatenation of produced samples distributes over list append. -/
theorem samplesConcat_append {α : Type} (a b : List (RChunk α)) :
    samplesConcat (a ++ b) = samplesConcat a ++ samplesConcat b := by
  simp [samplesConcat]

/-- create_chunk appends exactly the samples of the produced chunk to the
full buffer. -/
theorem create_chunk_fullBuffer {α σ : Type} (cfg : ChunkCfg α σ) (st : ChunkBuf α σ) :
    (create_chunk cfg st).1.fullBuffer =
      st.fullBuffer ++ ((create_chunk cfg st).2).elim [] RChunk.samples := by
  unfold create_chunk
  split
  · simp
  · simp

/-- The chunking loop appends exactly the samples of the chunks it
produces to the full buffer. -/
theorem chunk_loop_fullBuffer {α σ : Type} (cfg : ChunkCfg α σ) :
    ∀ (fuel : Nat) (st : ChunkBuf α σ),
    (chunk_loop cfg fuel st).1.fullBuffer =
      st.fullBuffer ++ samplesConcat (chunk_loop cfg fuel st).2 := by
  intro fuel
  induction fuel with
  | zero => intro st; simp [chunk_loop, samplesConcat]
  | succ n ih =>
    intro st
    rw [chunk_loop]
    by_cases hc : cfg.inputChunkSize ≤ st.pending.length
    · rw [if_pos hc]
      rcases hcc : create_chunk cfg st with ⟨st1, oc⟩
      cases oc with
      | some c =>
        have h1 : st1.fullBuffer = st.fullBuffer ++ c.samples := by
          have := create_chunk_fullBuffer cfg st
          rw [hcc] at this
          simpa using this
        simp only [hcc]
        simp [ih st1, h1, samplesConcat, List.append_assoc]
      | none =>
        have h1 : st1.fullBuffer = st.fullBuffer := by
          have := create_chunk_fullBuffer cfg st
          rw [hcc] at this
          simpa using this
        simp only [hcc]
        simp [h1, samplesConcat]
    · rw [if_neg hc]
      simp [samplesConcat]

/-- add_samples appends exactly the samples of the chunks it produces to
the full buffer. -/
theorem add_samples_fullBuffer {α σ : Type} (cfg : ChunkCfg α σ)
    (st : ChunkBuf α σ) (xs : List α) :
    (add_samples cfg st xs).1.fullBuffer =
      st.fullBuffer ++ samplesConcat (add_samples cfg st xs).2 := by
  unfold add_samples
  exact chunk_loop_fullBuffer cfg _ _

/-- flush_remaining appends exactly the samples of its final chunk to the
full buffer. -/
theorem flush_remaining_fullBuffer {α σ : Type} (cfg : ChunkCfg α σ) (st : ChunkBuf α σ) :
    (flush_remaining cfg st).1.fullBuffer =
      st.fullBuffer ++ ((flush_remaining cfg st).2).elim [] RChunk.samples := by
  unfold flush_remaining
  split
  · simp
  · simp

/-- One ring operation appends exactly the samples of the chunks it
produces to the full buffer. -/
theorem ring_step_fullBuffer {α σ : Type} (cfg : ChunkCfg α σ) (st : ChunkBuf α σ)
    (op : RingOp α) :
    (ring_step cfg st op).1.fullBuffer =
      st.fullBuffer ++ samplesConcat (ring_step cfg st op).2 := by
  cases op with
  | addSamples xs => exact add_samples_fullBuffer cfg st xs
  | flushRemaining =>
    rw [ring_step]
    rcases hf : flush_remaining cfg st with ⟨st1, oc⟩
    cases oc with
    | some c =>
      have h1 : st1.fullBuffer = st.fullBuffer ++ c.samples := by
        have := flush_remaining_fullBuffer cfg st
        rw [hf] at this
        simpa using this
      simp [h1, samplesConcat]
    | none =>
      have h1 : st1.fullBuffer = st.fullBuffer := by
        have := flush_remaining_fullBuffer cfg st
        rw [hf] at this
        simpa using this
      simp [h1, samplesConcat]
  | drainReady => simp [ring_step, samplesConcat]
  | takeNext => simp [ring_step, samplesConcat]

/-- Running any operation sequence appends exactly the samples of every
produced chunk, in order, to the full buffer. -/
theorem run_ring_fullBuffer {α σ : Type} (cfg : ChunkCfg α σ) :
    ∀ (ops : List (RingOp α)) (st : ChunkBuf α σ),
    (run_ring cfg st ops).1.fullBuffer =
      st.fullBuffer ++ samplesConcat (run_ring cfg st ops).2 := by
  intro ops
  induction ops with
  | nil => intro st; simp [run_ring, samplesConcat]
  | cons op ops ih =>
    intro st
    rw [run_ring]
    simp only []
    rw [samplesConcat_append, ih (ring_step cfg st op).1,
      ring_step_fullBuffer cfg st op, List.append_assoc]

/-- C2: after any session (any interleaving of add_samples,
flush_remaining and queue reads from the reset state), the full buffer is
the in-order concatenation of the samples of all chunks produced so far,
and its length is the sum of the produced chunks' sample counts; overlap
is never re-appended and queue overflow does not disturb the equality. -/
theorem c2_full_buffer_invariant {α σ : Type} (cfg : ChunkCfg α σ) (s0 : σ)
    (ops : List (RingOp α)) (_hpos : 0 < cfg.inputChunkSize) :
    (run_ring cfg (init_buf s0) ops).1.fullBuffer =
      samplesConcat (run_ring cfg (init_buf s0) ops).2 ∧
    (run_ring cfg (init_buf s0) ops).1.fullBuffer.length =
      ((run_ring cfg (init_buf s0) ops).2.map (fun c => c.samples.length)).sum := by
  have h := run_ring_fullBuffer cfg ops (init_buf s0)
  have h1 : (run_ring cfg (init_buf s0) ops).1.fullBuffer =
      samplesConcat (run_ring cfg (init_buf s0) ops).2 := by
    simpa [init_buf] using h
  refine ⟨h1, ?_⟩
  rw [h1]
  simp only [samplesConcat, List.length_flatten, List.map_map]
  rfl

/-- C2 witness: integer samples, 2-sample chunks, a queue of capacity 1
that overflows on the second chunk, a drained chunk, and a final flush;
the full buffer [1, 2, 3, 4, 5] is the concatenation of the three
produced chunks' samples. -/
theorem c2_full_buffer_invariant_witness :
    0 < cfgW.inputChunkSize ∧
    (run_ring cfgW (init_buf ()) opsW).1.fullBuffer =
      samplesConcat (run_ring cfgW (init_buf ()) opsW).2 :=
  ⟨by decide, (c2_full_buffer_invariant cfgW () opsW (by decide)).1⟩

/-- C3: resample_for_whisper is the identity at 16 kHz and on empty
input; otherwise, whenever the abstracted external resampler produces at
least the expected number of frames over the padded 1024-sample blocks,
the truncation makes the output length exactly
ceil(len * 16000 / rate). -/
theorem c3_resample_length {σ : Type} (proc : σ → List ℚ → List ℚ × σ) (s0 : σ)
    (samples : List ℚ) (rate : Nat) :
    resample_for_whisper proc s0 samples 16000 = samples ∧
    resample_for_whisper proc s0 [] rate = [] ∧
    (rate ≠ 16000 → samples ≠ [] →
      expectedResampleLen samples.length rate ≤
        (runBlocks proc s0 (toBlocks1024 samples)).length →
      (resample_for_whisper proc s0 samples rate).length =
        expectedResampleLen samples.length rate) := by
  refine ⟨?_, ?_, ?_⟩
  · simp [resample_for_whisper]
  · by_cases h : rate = 16000 <;> simp [resample_for_whisper, h]
  · intro h1 h2 h3
    have hne : samples.isEmpty = false := by
      cases samples with
      | nil => exact absurd rfl h2
      | cons a as => rfl
    rw [resample_for_whisper, if_neg h1]
    rw [hne]
    simp only [Bool.false_eq_true, if_false]
    rw [List.length_take]
    omega

/-- C3 witness: three samples at 8000 Hz with a doubling resampler stub;
the expected length ceil(3 * 16000 / 8000) = 6 is met exactly. -/
theorem c3_resample_length_witness :
    (8000 ≠ 16000) ∧ (([1, 2, 3] : List ℚ) ≠ []) ∧
    expectedResampleLen 3 8000 ≤
      (runBlocks procW () (toBlocks1024 [1, 2, 3])).length ∧
    (resample_for_whisper procW () [1, 2, 3] 8000).length = 6 := by
  have hblocks : toBlocks1024 [1, 2, 3] = [[1, 2, 3] ++ List.replicate 1021 0] := by
    rw [toBlocks1024]
    norm_num
    rw [toBlocks1024]
    simp
  have hraw : (runBlocks procW () (toBlocks1024 [1, 2, 3])).length = 2048 := by
    rw [hblocks]
    simp only [runBlocks, procW]
    simp only [List.length_append, List.length_replicate]
    norm_num
  have hexp : expectedResampleLen 3 8000 = 6 := by norm_num [expectedResampleLen]
  have hle : expectedResampleLen 3 8000 ≤
      (runBlocks procW () (toBlocks1024 [1, 2, 3])).length := by
    rw [hraw, hexp]; norm_num
  refine ⟨by norm_num, by simp, hle, ?_⟩
  have := (c3_resample_length procW () [1, 2, 3] 8000).2.2 (by norm_num) (by simp) hle
  rw [this]
  norm_num [expectedResampleLen]

/-- C9 (code bug): a prior context of one two-byte character followed by
199 ASCII letters is 201 bytes long, its 200th-from-last byte index (1)
is not a char boundary, and transcribe_chunk's byte-sliced suffix
extraction faults there instead of taking a 200-character tail. -/
theorem c9_prompt_byte_slice_panic :
    transcribe_chunk_prompt 32000 (some c9BadContext) = ChunkPromptOutcome.panicked ∧
    c9BadContext.length = 201 ∧
    rust_is_char_boundary c9BadContext 1 = false := by
  have hlen : c9BadContext.length = 201 := by
    simp [c9BadContext, List.length_replicate]
  have hbound : rust_is_char_boundary c9BadContext 1 = false := by
    rw [rust_is_char_boundary]
    simp [c9BadContext]
  have hcs : context_suffix c9BadContext = none := by
    rw [context_suffix, if_pos (by rw [hlen]; norm_num), hlen]
    rw [show (201 - 200 : Nat) = 1 from rfl, slice_from, hbound]
    simp
  refine ⟨?_, hlen, hbound⟩
  rw [transcribe_chunk_prompt]
  norm_num
  rw [hcs]
  simp [c9BadContext]

/-- C8 counterexample: for the all-whitespace text " " with duration 2 s
and no tokens, the code returns 0 (empty trimmed text), while the claim's
heuristic has one character, ratio 1/30 < 0.3, and yields
0.7 - 0.2 = 0.5. -/
theorem c8_confidence_counterexample :
    estimate_chunk_confidence (str " ") 2 0 = 0 ∧
    claimConfidence (str " ") 2 0 = 1/2 ∧
    estimate_chunk_confidence (str " ") 2 0 ≠ claimConfidence (str " ") 2 0 := by
  have h1 : estimate_chunk_confidence (str " ") 2 0 = 0 := by
    have ht : (trimChars (str " ")).isEmpty = true := by decide
    simp [estimate_chunk_confidence, ht]
  have h2 : claimConfidence (str " ") 2 0 = 1/2 := by
    have hlen : utf8Len (str " ") = 1 := by decide
    have hfr : hasFourRun (split_whitespace (str " ")) = false := by decide
    rw [claimConfidence]
    norm_num [hlen, hfr]
  exact ⟨h1, h2, by rw [h1, h2]; norm_num⟩

/-- The repetition flag unfolded: at least 20 bytes and a word at four
consecutive positions. -/
theorem has_repetition_iff (t : RStr) :
    has_repetition t = true ↔
      20 ≤ utf8Len t ∧ hasFourRun (split_whitespace t) = true := by
  rw [has_repetition]
  by_cases h20 : utf8Len t < 20
  · rw [if_pos h20]
    constructor
    · intro h
      simp at h
    · intro h
      exfalso
      omega
  · simp only [if_neg h20]
    constructor
    · intro h
      exact ⟨Nat.le_of_not_lt h20, h⟩
    · intro h
      exact h.2

set_option maxHeartbeats 1000000 in
/-- C8 (amended): for positive duration the confidence equals the claim's
heuristic amended in two places: any text whose trimmed form is empty
scores 0 (not only zero-character text), and the repetition penalty
applies only when the trimmed text is at least 20 bytes long and some
word occupies four consecutive positions. -/
theorem c8_confidence (text : RStr) (d : ℚ) (tok : ℤ) (_hd : 0 < d) :
    estimate_chunk_confidence text d tok = amendedConfidence text d tok := by
  rw [estimate_chunk_confidence, amendedConfidence]
  by_cases htrim : (trimChars text).isEmpty
  · simp [htrim]
  · have htx : text ≠ [] := by
      intro h
      rw [h] at htrim
      exact htrim rfl
    have hpos : 0 < utf8Len text := by
      cases text with
      | nil => exact absurd rfl htx
      | cons c cs =>
        have := Char.utf8Size_pos c
        simp [utf8Len]
        omega
    have hposQ : (0 : ℚ) < (utf8Len text : ℚ) := by exact_mod_cast hpos
    have hcomm : d * 15 = 15 * d := by ring
    simp only [htrim, if_pos hposQ, hcomm, Bool.false_eq_true, if_false]
    simp only [has_repetition_iff]
    set r := (utf8Len text : ℚ) / (15 * d) with hrdef
    split_ifs <;> try norm_num
    all_goals
      first
        | linarith
        | exact absurd ‹1 / 2 ≤ r ∧ r ≤ 2›.1 (not_le.mpr (by linarith))
        | exact absurd ‹1 / 2 ≤ r ∧ r ≤ 2›.2 (not_le.mpr (by linarith))
        | tauto

/-- C8 witness: the amended statement at a concrete normal text, 2 s and
5 tokens. -/
theorem c8_confidence_witness :
    (0 : ℚ) < 2 ∧
    estimate_chunk_confidence (str "hello there everyone") 2 5 =
      amendedConfidence (str "hello there everyone") 2 5 :=
  ⟨by norm_num, c8_confidence (str "hello there everyone") 2 5 (by norm_num)⟩

end EzFlow
